import Mathlib

set_option maxRecDepth 2000

/-!
Shallow embedding of the spectral-reconstruction stage of the AAC decoder
(libavcodec/aac/aacdec_dsp_template.c): scalefactor dequantization, mid/side
and intensity stereo reconstruction, TNS filtering, and long-term prediction
(LTP) apply/update.

Modelling conventions:
* A fixed-size C array becomes a total function out of ℕ; an in-place pass
  over an array becomes a function returning the updated function.
* The floating-point sample type becomes ℚ; the properties under study are
  structural (which cells are written, and with which arithmetic expression),
  so the exact-field carrier stands in for IEEE floats.  The fixed-point
  scalefactor domain is ℤ, exact.
* The run-walking loops of the C source advance by band_type_run_end steps;
  they are embedded with a fuel argument bounding the iteration count.  On
  well-formed inputs (run ends strictly advance past the cursor, as the
  bitstream parser guarantees) the fuel is never exhausted and the embedding
  follows the C loop step for step; on malformed inputs the C loop would not
  terminate.
* External collaborators (the table ff_aac_pow2sf_tab, compute_lpc_coefs,
  windowing_and_mdct_ltp and the window tables from aactab) are parameters
  of the embedding.
* Counting loops `for (x = 0; x < n; x++)` become folds over `List.range n`.
  The C code keeps the running band index `idx` and the channel base pointer
  as mutable cursors; since they advance by exactly `max_sfb` per group and
  `group_len[g] * 128` per group respectively, the embedding computes them
  from the loop counters (`idx = g * max_sfb + i`, base = `128 * winBase g`).
-/

/-- BandType code ZERO_BT (enum BandType, aac.h). -/
def ZERO_BT : ℕ := 0

/-- BandType code NOISE_BT (enum BandType, aac.h). -/
def NOISE_BT : ℕ := 13

/-- BandType code INTENSITY_BT2 (enum BandType, aac.h). -/
def INTENSITY_BT2 : ℕ := 14

/-- BandType code INTENSITY_BT (enum BandType, aac.h). -/
def INTENSITY_BT : ℕ := 15

/-- WindowSequence code ONLY_LONG_SEQUENCE (aac.h). -/
def ONLY_LONG_SEQUENCE : ℕ := 0

/-- WindowSequence code LONG_START_SEQUENCE (aac.h). -/
def LONG_START_SEQUENCE : ℕ := 1

/-- WindowSequence code EIGHT_SHORT_SEQUENCE (aac.h). -/
def EIGHT_SHORT_SEQUENCE : ℕ := 2

/-- WindowSequence code LONG_STOP_SEQUENCE (aac.h). -/
def LONG_STOP_SEQUENCE : ℕ := 3

/-- POW_SF2_ZERO (aac_defines.h): index of 1.0 in ff_aac_pow2sf_tab. -/
def POW_SF2_ZERO : ℤ := 200

/-- MAX_LTP_LONG_SFB (aacdec.h): cap on the number of LTP-mixed bands. -/
def MAX_LTP_LONG_SFB : ℕ := 40

/-- IndividualChannelStream: the per-frame window / scalefactor-band geometry
(fields used by this stage; window_sequence is the C field window_sequence[0]). -/
structure ICS where
  num_window_groups : ℕ
  group_len : ℕ → ℕ
  max_sfb : ℕ
  num_swb : ℕ
  swb_offset : ℕ → ℕ
  window_sequence : ℕ
  num_windows : ℕ
  tns_max_bands : ℕ
  use_kb_window : Bool

/-- LongTermPrediction: transmitted LTP parameters. -/
structure LTP where
  lag : ℕ
  coef : ℚ
  used : ℕ → Bool

/-- TemporalNoiseShaping: transmitted TNS parameters
(coefArr w filt is the quantized coefficient array coef[w][filt]). -/
structure TNS where
  present : Bool
  n_filt : ℕ → ℕ
  length : ℕ → ℕ → ℕ
  order : ℕ → ℕ → ℕ
  direction : ℕ → ℕ → Bool
  coefArr : ℕ → ℕ → ℕ → ℚ

/-- SingleChannelElement: the per-channel state used by the LTP engine. -/
structure SCE where
  ics : ICS
  coeffs : ℕ → ℚ
  output : ℕ → ℚ
  saved : ℕ → ℚ
  ltp_state : ℕ → ℚ
  ltp : LTP
  tns : TNS

/-- ChannelElement (a channel pair): fields used by the stereo tools.
ics0/bt0 belong to ch[0], ics1/bt1/rend1/sf1 to ch[1]. -/
structure CPE where
  ics0 : ICS
  ics1 : ICS
  bt0 : ℕ → ℕ
  bt1 : ℕ → ℕ
  rend1 : ℕ → ℕ
  ms_mask : ℕ → Bool
  sf1 : ℕ → ℚ
  ch0 : ℕ → ℚ
  ch1 : ℕ → ℚ

/-- AACDecContext pieces reached from this stage: the shared buf_mdct scratch,
the aactab window tables, and the two external collaborators
compute_lpc_coefs (lpcOf) and windowing_and_mdct_ltp (wml). -/
structure AACCtx where
  buf_mdct : ℕ → ℚ
  aac_kbd_long_1024 : ℕ → ℚ
  aac_kbd_short_128 : ℕ → ℚ
  sine_1024 : ℕ → ℚ
  sine_128 : ℕ → ℚ
  lpcOf : (ℕ → ℚ) → ℕ → ℕ → ℚ
  wml : (ℕ → ℚ) → ICS → ℕ → ℚ

/-! ### Scalefactor dequantization (dequant_scalefactors)

The C switch body, per band type, in the two numeric domains of the template
(USE_FIXED and float).  `tab` is the external table ff_aac_pow2sf_tab. -/

/-- Per-band scalefactor mapping selected by the switch on band_type,
USE_FIXED domain. -/
def dequant_band_fixed (bt : ℕ) (s : ℤ) : ℤ :=
  if bt = ZERO_BT then 0
  else if bt = INTENSITY_BT ∨ bt = INTENSITY_BT2 then 100 - s
  else if bt = NOISE_BT then -(100 + s)
  else -s

/-- Per-band scalefactor mapping selected by the switch on band_type,
float domain; tab is ff_aac_pow2sf_tab. -/
def dequant_band_float (tab : ℤ → ℚ) (bt : ℕ) (s : ℤ) : ℚ :=
  if bt = ZERO_BT then 0
  else if bt = INTENSITY_BT ∨ bt = INTENSITY_BT2 then tab (-s + POW_SF2_ZERO)
  else if bt = NOISE_BT then -tab (s + POW_SF2_ZERO)
  else -tab (s - 100 + POW_SF2_ZERO)

/-- The per-group run-walking loop of dequant_scalefactors, generic in the
value domain.  One iteration consumes the run [i, rend idx): the switch is
dispatched on band_type at the run head and the inner for-loop writes
sf[idx..idx+n).  fuel bounds the iteration count (see file header). -/
def dequant_group {α : Type} (F : ℕ → ℤ → α) (bt rend : ℕ → ℕ) (sfo : ℕ → ℤ)
    (max_sfb : ℕ) : ℕ → ℕ → ℕ → (ℕ → α) → (ℕ → α) × ℕ
  | 0, _, idx, sf => (sf, idx)
  | fuel + 1, i, idx, sf =>
    if i < max_sfb then
      dequant_group F bt rend sfo max_sfb fuel (i + (rend idx - i)) (idx + (rend idx - i))
        (fun k => if idx ≤ k ∧ k < idx + (rend idx - i) then F (bt idx) (sfo k) else sf k)
    else (sf, idx)

/-- dequant_scalefactors, generic in the value domain: the outer loop over
window groups, carrying the cumulative band counter idx. -/
def dequant_scalefactors_gen {α : Type} (F : ℕ → ℤ → α) (bt rend : ℕ → ℕ)
    (sfo : ℕ → ℤ) (nwg max_sfb : ℕ) (sf : ℕ → α) : ℕ → α :=
  ((List.range nwg).foldl
    (fun p _ => dequant_group F bt rend sfo max_sfb (max_sfb + 1) 0 p.2 p.1)
    (sf, 0)).1

/-- dequant_scalefactors, USE_FIXED domain. -/
def dequant_scalefactors_fixed (bt rend : ℕ → ℕ) (sfo : ℕ → ℤ)
    (nwg max_sfb : ℕ) (sf : ℕ → ℤ) : ℕ → ℤ :=
  dequant_scalefactors_gen dequant_band_fixed bt rend sfo nwg max_sfb sf

/-- dequant_scalefactors, float domain (tab is ff_aac_pow2sf_tab). -/
def dequant_scalefactors_float (tab : ℤ → ℚ) (bt rend : ℕ → ℕ) (sfo : ℕ → ℤ)
    (nwg max_sfb : ℕ) (sf : ℕ → ℚ) : ℕ → ℚ :=
  dequant_scalefactors_gen (dequant_band_float tab) bt rend sfo nwg max_sfb sf

/-- Well-formedness of the run structure (spec §3): looking from any band
position i of any group, the current run extends strictly past i, ends within
max_sfb, and the band type is constant from i to the run end.  This is the
invariant the bitstream parser establishes; the run-walking loops of the C
code terminate exactly on such inputs. -/
def RunWF (bt rend : ℕ → ℕ) (nwg max_sfb : ℕ) : Prop :=
  ∀ g, g < nwg → ∀ i, i < max_sfb →
    i < rend (g * max_sfb + i) ∧ rend (g * max_sfb + i) ≤ max_sfb ∧
    ∀ j, j < rend (g * max_sfb + i) → i ≤ j →
      bt (g * max_sfb + j) = bt (g * max_sfb + i)

instance (bt rend : ℕ → ℕ) (nwg max_sfb : ℕ) :
    Decidable (RunWF bt rend nwg max_sfb) := by
  unfold RunWF; infer_instance

/-- Characterization of one group pass of dequant_scalefactors: starting at
band position i of group g with enough fuel, every band from i to the end of
the group is mapped through the formula for its own band type (well-formed
runs make the run-head dispatch agree with the per-band type), every other
index is untouched, and the band counter ends at the next group's start. -/
theorem dequant_group_spec {α : Type} (F : ℕ → ℤ → α) (bt rend : ℕ → ℕ)
    (sfo : ℕ → ℤ) (max_sfb g : ℕ)
    (hWF : ∀ i, i < max_sfb →
      i < rend (g * max_sfb + i) ∧ rend (g * max_sfb + i) ≤ max_sfb ∧
      ∀ j, j < rend (g * max_sfb + i) → i ≤ j →
        bt (g * max_sfb + j) = bt (g * max_sfb + i)) :
    ∀ fuel i sf, i ≤ max_sfb → max_sfb - i < fuel →
      (dequant_group F bt rend sfo max_sfb fuel i (g * max_sfb + i) sf).2 =
          g * max_sfb + max_sfb ∧
      ∀ k, (dequant_group F bt rend sfo max_sfb fuel i (g * max_sfb + i) sf).1 k =
        if g * max_sfb + i ≤ k ∧ k < g * max_sfb + max_sfb then F (bt k) (sfo k)
        else sf k := by
  intro fuel
  induction fuel with
  | zero => intro i sf hi hf; omega
  | succ fuel ih =>
    intro i sf hi hf
    by_cases hlt : i < max_sfb
    · obtain ⟨h1, h2, h3⟩ := hWF i hlt
      rw [dequant_group, if_pos hlt]
      have hre : i + (rend (g * max_sfb + i) - i) = rend (g * max_sfb + i) := by
        omega
      have hre2 : g * max_sfb + i + (rend (g * max_sfb + i) - i) =
          g * max_sfb + rend (g * max_sfb + i) := by omega
      rw [hre, hre2]
      obtain ⟨ihA, ihB⟩ := ih (rend (g * max_sfb + i))
        (fun k => if g * max_sfb + i ≤ k ∧ k < g * max_sfb + rend (g * max_sfb + i)
          then F (bt (g * max_sfb + i)) (sfo k) else sf k) h2 (by omega)
      refine ⟨ihA, fun k => ?_⟩
      rw [ihB k]
      by_cases hk : g * max_sfb + rend (g * max_sfb + i) ≤ k ∧
          k < g * max_sfb + max_sfb
      · rw [if_pos hk, if_pos (by omega)]
      · rw [if_neg hk]
        by_cases hk2 : g * max_sfb + i ≤ k ∧
            k < g * max_sfb + rend (g * max_sfb + i)
        · rw [if_pos hk2, if_pos (by omega)]
          have hj : g * max_sfb + (k - g * max_sfb) = k := by omega
          have hbt := h3 (k - g * max_sfb) (by omega) (by omega)
          rw [hj] at hbt
          rw [hbt]
        · rw [if_neg hk2, if_neg (by omega)]
    · rw [dequant_group, if_neg hlt]
      refine ⟨?_, fun k => ?_⟩
      · show g * max_sfb + i = g * max_sfb + max_sfb
        omega
      · show sf k = _
        rw [if_neg (by omega)]

/-- Characterization of dequant_scalefactors (generic domain): under
well-formed runs, every band index below nwg * max_sfb receives the mapping
of its own band type applied to its own encoded scalefactor; every other
index keeps its previous value. -/
theorem dequant_scalefactors_gen_spec {α : Type} (F : ℕ → ℤ → α)
    (bt rend : ℕ → ℕ) (sfo : ℕ → ℤ) (nwg max_sfb : ℕ) (sf : ℕ → α)
    (hWF : RunWF bt rend nwg max_sfb) :
    ∀ k, dequant_scalefactors_gen F bt rend sfo nwg max_sfb sf k =
      if k < nwg * max_sfb then F (bt k) (sfo k) else sf k := by
  have main : ∀ n, n ≤ nwg →
      ((List.range n).foldl
        (fun p _ => dequant_group F bt rend sfo max_sfb (max_sfb + 1) 0 p.2 p.1)
        (sf, 0)).2 = n * max_sfb ∧
      ∀ k, ((List.range n).foldl
        (fun p _ => dequant_group F bt rend sfo max_sfb (max_sfb + 1) 0 p.2 p.1)
        (sf, 0)).1 k = if k < n * max_sfb then F (bt k) (sfo k) else sf k := by
    intro n
    induction n with
    | zero =>
      intro _
      refine ⟨by simp, fun k => by simp⟩
    | succ n ihn =>
      intro hn
      obtain ⟨ih2, ih1⟩ := ihn (by omega)
      rw [List.range_succ, List.foldl_append, List.foldl_cons, List.foldl_nil]
      rw [ih2]
      have hg := dequant_group_spec F bt rend sfo max_sfb n
        (fun i hi => hWF n (by omega) i hi) (max_sfb + 1) 0
        (((List.range n).foldl
          (fun p _ => dequant_group F bt rend sfo max_sfb (max_sfb + 1) 0 p.2 p.1)
          (sf, 0)).1) (by omega) (by omega)
      simp only [Nat.add_zero] at hg
      refine ⟨?_, fun k => ?_⟩
      · rw [hg.1]; ring
      · rw [hg.2 k, ih1 k]
        have hmul : (n + 1) * max_sfb = n * max_sfb + max_sfb := by ring
        rw [hmul]
        split_ifs <;> first | rfl | omega
  intro k
  show ((List.range nwg).foldl
      (fun p _ => dequant_group F bt rend sfo max_sfb (max_sfb + 1) 0 p.2 p.1)
      (sf, 0)).1 k = _
  exact (main nwg le_rfl).2 k

/-- C7: for every band idx with band_type[idx] == ZERO, dequant_scalefactors
sets sf[idx] to 0 regardless of sfo[idx], in both numeric domains (the
USE_FIXED build writes FIXR(0.) = 0 and the float build writes 0). -/
theorem dequant_zero_band (bt rend : ℕ → ℕ) (sfo : ℕ → ℤ) (tab : ℤ → ℚ)
    (nwg max_sfb : ℕ) (sfF : ℕ → ℤ) (sfQ : ℕ → ℚ)
    (hWF : RunWF bt rend nwg max_sfb) (idx : ℕ) (hidx : idx < nwg * max_sfb)
    (hbt : bt idx = ZERO_BT) :
    dequant_scalefactors_fixed bt rend sfo nwg max_sfb sfF idx = 0 ∧
    dequant_scalefactors_float tab bt rend sfo nwg max_sfb sfQ idx = 0 := by
  constructor
  · rw [dequant_scalefactors_fixed,
      dequant_scalefactors_gen_spec dequant_band_fixed bt rend sfo nwg max_sfb sfF hWF idx,
      if_pos hidx, hbt, dequant_band_fixed, if_pos rfl]
  · rw [dequant_scalefactors_float,
      dequant_scalefactors_gen_spec (dequant_band_float tab) bt rend sfo nwg max_sfb sfQ hWF idx,
      if_pos hidx, hbt, dequant_band_float, if_pos rfl]

/-- Concrete input for the dequant witnesses: one group, one band, ZERO run. -/
def btW7 : ℕ → ℕ := fun _ => ZERO_BT

/-- Run ends for the C7 witness: the single run ends at band 1. -/
def rendW7 : ℕ → ℕ := fun _ => 1

/-- Witness for dequant_zero_band at a concrete well-formed input. -/
theorem dequant_zero_band_witness :
    dequant_scalefactors_fixed btW7 rendW7 (fun _ => 37) 1 1 (fun _ => 5) 0 = 0 ∧
    dequant_scalefactors_float (fun _ => 2) btW7 rendW7 (fun _ => 37) 1 1 (fun _ => 5) 0 = 0 :=
  dequant_zero_band btW7 rendW7 (fun _ => 37) (fun _ => 2) 1 1 (fun _ => 5)
    (fun _ => 5) (by decide) 0 (by decide) (by decide)

/-- C6 (amended): for a NOISE band the dequantized sf mirrors the INTENSITY
mapping negated at the negated encoded scalefactor — USE_FIXED domain
sf = -(100 + sfo) (the intensity formula 100 - sfo applied to -sfo, negated),
float domain sf = -tab(sfo + POW_SF2_ZERO) (the intensity table lookup at
-sfo, negated).  It therefore carries the same leading minus as normal
spectral bands, not the opposite sign convention. -/
theorem dequant_noise_char (bt rend : ℕ → ℕ) (sfo : ℕ → ℤ) (tab : ℤ → ℚ)
    (nwg max_sfb : ℕ) (sfF : ℕ → ℤ) (sfQ : ℕ → ℚ)
    (hWF : RunWF bt rend nwg max_sfb) (idx : ℕ) (hidx : idx < nwg * max_sfb)
    (hbt : bt idx = NOISE_BT) :
    dequant_scalefactors_fixed bt rend sfo nwg max_sfb sfF idx = -(100 + sfo idx) ∧
    dequant_scalefactors_fixed bt rend sfo nwg max_sfb sfF idx =
      -(dequant_band_fixed INTENSITY_BT (-(sfo idx))) ∧
    dequant_scalefactors_float tab bt rend sfo nwg max_sfb sfQ idx =
      -tab (sfo idx + POW_SF2_ZERO) ∧
    dequant_scalefactors_float tab bt rend sfo nwg max_sfb sfQ idx =
      -(dequant_band_float tab INTENSITY_BT (-(sfo idx))) := by
  have hfix : dequant_scalefactors_fixed bt rend sfo nwg max_sfb sfF idx =
      -(100 + sfo idx) := by
    rw [dequant_scalefactors_fixed,
      dequant_scalefactors_gen_spec dequant_band_fixed bt rend sfo nwg max_sfb sfF hWF idx,
      if_pos hidx, hbt]
    rfl
  have hflo : dequant_scalefactors_float tab bt rend sfo nwg max_sfb sfQ idx =
      -tab (sfo idx + POW_SF2_ZERO) := by
    rw [dequant_scalefactors_float,
      dequant_scalefactors_gen_spec (dequant_band_float tab) bt rend sfo nwg max_sfb sfQ hWF idx,
      if_pos hidx, hbt]
    rfl
  refine ⟨hfix, ?_, hflo, ?_⟩
  · rw [hfix]; rw [dequant_band_fixed]; norm_num [INTENSITY_BT, ZERO_BT, INTENSITY_BT2]
  · rw [hflo]; rw [dequant_band_float]
    norm_num [INTENSITY_BT, ZERO_BT, INTENSITY_BT2, POW_SF2_ZERO]

/-- Band types for the C6 counterexample: band 0 NOISE, band 1 a normal
spectral band (ESC-range code 1). -/
def btX6 : ℕ → ℕ := fun i => if i = 0 then NOISE_BT else 1

/-- Run ends for the C6 counterexample: runs [0,1) and [1,2). -/
def rendX6 : ℕ → ℕ := fun i => if i = 0 then 1 else 2

/-- C6 counterexample: with the same encoded scalefactor sfo = 50 on a NOISE
band and on a normal band, the USE_FIXED dequantizer yields -150 and -50:
both strictly negative, hence the NOISE value does not have the opposite sign
convention from the normal band's value — it has the same one, shifted. -/
theorem dequant_noise_sign_cex :
    dequant_scalefactors_fixed btX6 rendX6 (fun _ => 50) 1 2 (fun _ => 0) 0 = -150 ∧
    dequant_scalefactors_fixed btX6 rendX6 (fun _ => 50) 1 2 (fun _ => 0) 1 = -50 ∧
    dequant_scalefactors_fixed btX6 rendX6 (fun _ => 50) 1 2 (fun _ => 0) 0 < 0 ∧
    dequant_scalefactors_fixed btX6 rendX6 (fun _ => 50) 1 2 (fun _ => 0) 1 < 0 := by
  decide

/-- Witness for dequant_noise_char at a concrete well-formed input. -/
theorem dequant_noise_char_witness :
    dequant_scalefactors_fixed btX6 rendX6 (fun _ => 50) 1 2 (fun _ => 0) 0 = -(100 + 50) ∧
    dequant_scalefactors_fixed btX6 rendX6 (fun _ => 50) 1 2 (fun _ => 0) 0 =
      -(dequant_band_fixed INTENSITY_BT (-(50 : ℤ))) ∧
    dequant_scalefactors_float (fun z => z) btX6 rendX6 (fun _ => 50) 1 2 (fun _ => 0) 0 =
      -(((50 : ℤ) + POW_SF2_ZERO : ℤ) : ℚ) ∧
    dequant_scalefactors_float (fun z => z) btX6 rendX6 (fun _ => 50) 1 2 (fun _ => 0) 0 =
      -(dequant_band_float (fun z => z) INTENSITY_BT (-(50 : ℤ))) :=
  dequant_noise_char btX6 rendX6 (fun _ => 50) (fun z => z) 1 2 (fun _ => 0)
    (fun _ => 0) (by decide) 0 (by decide) (by decide)

/-! ### Window-group layout

The stereo tools advance the channel base pointers by group_len[g] * 128 after
each group g; winBase accumulates the window count, so the base pointer for
group g sits at sample index 128 * winBase g. -/

/-- Number of windows before group g (the accumulated group_len). -/
def winBase (glen : ℕ → ℕ) : ℕ → ℕ
  | 0 => 0
  | g + 1 => winBase glen g + glen g

theorem winBase_mono (glen : ℕ → ℕ) : ∀ g1 g2, g1 ≤ g2 →
    winBase glen g1 ≤ winBase glen g2 := by
  have main : ∀ g2 g1, g1 ≤ g2 → winBase glen g1 ≤ winBase glen g2 := by
    intro g2
    induction g2 with
    | zero =>
      intro g1 h
      have hz : g1 = 0 := by omega
      subst hz
      exact le_rfl
    | succ m ih =>
      intro g1 h
      by_cases hc : g1 = m + 1
      · subst hc; exact le_rfl
      · have h2 := ih g1 (by omega)
        show winBase glen g1 ≤ winBase glen m + glen m
        omega
  intro g1 g2 h
  exact main g2 g1 h

/-- Global window indices winBase g + w (with w < group_len g) identify the
group and the window within it uniquely. -/
theorem winIndex_uniq (glen : ℕ → ℕ) (g1 w1 g2 w2 : ℕ)
    (h1 : w1 < glen g1) (h2 : w2 < glen g2)
    (heq : winBase glen g1 + w1 = winBase glen g2 + w2) : g1 = g2 ∧ w1 = w2 := by
  rcases Nat.lt_trichotomy g1 g2 with h | h | h
  · exfalso
    have hs : winBase glen g1 + glen g1 ≤ winBase glen g2 := by
      have := winBase_mono glen (g1 + 1) g2 h
      rw [winBase] at this
      exact this
    omega
  · subst h
    exact ⟨rfl, by omega⟩
  · exfalso
    have hs : winBase glen g2 + glen g2 ≤ winBase glen g1 := by
      have := winBase_mono glen (g2 + 1) g1 h
      rw [winBase] at this
      exact this
    omega

/-- The swb_offset table is strictly increasing on its first n+1 entries
(spec §3 invariant for the band layout). -/
def StrictOffsets (off : ℕ → ℕ) (n : ℕ) : Prop :=
  ∀ i, i < n → off i < off (i + 1)

instance (off : ℕ → ℕ) (n : ℕ) : Decidable (StrictOffsets off n) := by
  unfold StrictOffsets; infer_instance

theorem off_mono (off : ℕ → ℕ) (n : ℕ) (h : StrictOffsets off n) :
    ∀ i j, i ≤ j → j ≤ n → off i ≤ off j := by
  have main : ∀ j, j ≤ n → ∀ i, i ≤ j → off i ≤ off j := by
    intro j
    induction j with
    | zero =>
      intro _ i hi
      have hz : i = 0 := by omega
      subst hz
      exact le_rfl
    | succ m ih =>
      intro hm i hi
      by_cases hc : i = m + 1
      · subst hc; exact le_rfl
      · have h2 := ih (by omega) i (by omega)
        have h3 := h m (by omega)
        omega
  intro i j hij hj
  exact main j hj i hij

/-- Under a strictly increasing offset table, a coefficient index within a
window belongs to at most one scalefactor band. -/
theorem band_uniq (off : ℕ → ℕ) (n : ℕ) (h : StrictOffsets off n)
    (i1 i2 k : ℕ) (hi1 : i1 < n) (hi2 : i2 < n)
    (ha : off i1 ≤ k) (hb : k < off (i1 + 1))
    (hc : off i2 ≤ k) (hd : k < off (i2 + 1)) : i1 = i2 := by
  rcases Nat.lt_trichotomy i1 i2 with hlt | hlt | hlt
  · have := off_mono off n h (i1 + 1) i2 (by omega) (by omega)
    omega
  · omega
  · have := off_mono off n h (i2 + 1) i1 (by omega) (by omega)
    omega

/-- Address uniqueness for per-band per-window coefficient ranges: the sample
address 128 * (winBase g + w) + k with k inside band i's offset range
determines (g, w, i, k) uniquely, provided offsets are strictly increasing and
bounded by the window length 128. -/
theorem addr_uniq (glen off : ℕ → ℕ) (n : ℕ)
    (hoff : StrictOffsets off n) (hbound : off n ≤ 128) :
    ∀ g1 w1 i1 k1 g2 w2 i2 k2,
      w1 < glen g1 → i1 < n → off i1 ≤ k1 → k1 < off (i1 + 1) →
      w2 < glen g2 → i2 < n → off i2 ≤ k2 → k2 < off (i2 + 1) →
      128 * (winBase glen g1 + w1) + k1 = 128 * (winBase glen g2 + w2) + k2 →
      g1 = g2 ∧ w1 = w2 ∧ i1 = i2 ∧ k1 = k2 := by
  intro g1 w1 i1 k1 g2 w2 i2 k2 hw1 hi1 ha1 hb1 hw2 hi2 ha2 hb2 heq
  have hk1 : k1 < 128 := by
    have := off_mono off n hoff (i1 + 1) n (by omega) (by omega)
    omega
  have hk2 : k2 < 128 := by
    have := off_mono off n hoff (i2 + 1) n (by omega) (by omega)
    omega
  have hwin : winBase glen g1 + w1 = winBase glen g2 + w2 ∧ k1 = k2 := by
    constructor <;> omega
  obtain ⟨hg, hw⟩ := winIndex_uniq glen g1 w1 g2 w2 hw1 hw2 hwin.1
  have hi : i1 = i2 := band_uniq off n hoff i1 i2 k1 hi1 hi2 ha1 hb1
    (by rw [hwin.2]; exact ha2) (by rw [hwin.2]; exact hb2)
  exact ⟨hg, hw, hi, hwin.2⟩

/-! ### Generic fold lemmas for in-place array passes

Each loop of the stereo tools writes a set of disjoint index regions; these
two lemmas capture value preservation outside all regions and the
write-once behaviour inside one region. -/

theorem foldl_preserve {β : Type} (f : (ℕ → β) → ℕ → (ℕ → β)) (l : List ℕ)
    (a : ℕ) (h : ∀ s w, w ∈ l → f s w a = s a) :
    ∀ s, (l.foldl f s) a = s a := by
  induction l with
  | nil => intro s; rfl
  | cons w0 tl ih =>
    intro s
    rw [List.foldl_cons]
    rw [ih (fun s w hw => h s w (List.mem_cons_of_mem w0 hw)) (f s w0)]
    exact h s w0 (List.mem_cons_self w0 tl)

theorem foldl_write_once {β : Type} (f : (ℕ → β) → ℕ → (ℕ → β)) (a : ℕ)
    (G : β → β) :
    ∀ (l : List ℕ) (j0 : ℕ), l.Nodup → j0 ∈ l →
      (∀ s j, j ∈ l → j ≠ j0 → f s j a = s a) →
      (∀ s, f s j0 a = G (s a)) →
      ∀ s, (l.foldl f s) a = G (s a) := by
  intro l
  induction l with
  | nil => intro j0 _ h; exact absurd h (List.not_mem_nil j0)
  | cons w0 tl ih =>
    intro j0 hnd hj0 hothers hwrite s
    rw [List.foldl_cons]
    rcases List.mem_cons.mp hj0 with he | he
    · subst he
      have hnotin : ∀ s j, j ∈ tl → f s j a = s a := by
        intro s j hj
        exact hothers s j (List.mem_cons_of_mem j0 hj)
          (fun hcon => (List.nodup_cons.mp hnd).1 (hcon ▸ hj))
      rw [foldl_preserve f tl a hnotin (f s j0)]
      exact hwrite s
    · rw [ih j0 (List.nodup_cons.mp hnd).2 he
        (fun s j hj hne => hothers s j (List.mem_cons_of_mem w0 hj) hne) hwrite]
      rw [hothers s w0 (List.mem_cons_self w0 tl)
        (fun hcon => (List.nodup_cons.mp hnd).1 (hcon ▸ he))]

/-! ### Mid/side stereo (apply_mid_side_stereo) -/

/-- The vector butterfly primitive (butterflies_float / butterflies_fixed)
over the coefficient range [a, a + len): per element, t = v1 - v2;
v1 += v2; v2 = t, so channel 0 receives the sum and channel 1 the
difference.  The two channels are bundled index-wise into one function to
ℚ × ℚ (component 1 is ch0, component 2 is ch1). -/
def butterflies (p : ℕ → ℚ × ℚ) (a len : ℕ) : ℕ → ℚ × ℚ :=
  fun k => if a ≤ k ∧ k < a + len then ((p k).1 + (p k).2, (p k).1 - (p k).2)
  else p k

/-- The per-window loop of one mid/side band: the butterfly is applied to the
band's offset range in every window of group g (the C base pointer ch0/ch1
stands at sample 128 * winBase g, window stride 128). -/
def ms_band_windows (ics : ICS) (g i : ℕ) (p : ℕ → ℚ × ℚ) : ℕ → ℚ × ℚ :=
  (List.range (ics.group_len g)).foldl
    (fun q w => butterflies q
      (128 * (winBase ics.group_len g + w) + ics.swb_offset i)
      (ics.swb_offset (i + 1) - ics.swb_offset i)) p

/-- The mid/side gate of the C code: cpe->ms_mask[idx] &&
cpe->ch[0].band_type[idx] < NOISE_BT && cpe->ch[1].band_type[idx] < NOISE_BT. -/
def msCond (cpe : CPE) (idx : ℕ) : Prop :=
  cpe.ms_mask idx = true ∧ cpe.bt0 idx < NOISE_BT ∧ cpe.bt1 idx < NOISE_BT

instance (cpe : CPE) (idx : ℕ) : Decidable (msCond cpe idx) := by
  unfold msCond; infer_instance

/-- Loop body for band i of group g of apply_mid_side_stereo (the running
band counter idx of the C code equals g * max_sfb + i). -/
def ms_band_step (cpe : CPE) (g : ℕ) (p : ℕ → ℚ × ℚ) (i : ℕ) : ℕ → ℚ × ℚ :=
  if msCond cpe (g * cpe.ics0.max_sfb + i) then ms_band_windows cpe.ics0 g i p
  else p

/-- apply_mid_side_stereo: the nested loops over window groups and bands. -/
def apply_mid_side_stereo (cpe : CPE) : CPE :=
  let res := (List.range cpe.ics0.num_window_groups).foldl
    (fun p g => (List.range cpe.ics0.max_sfb).foldl (ms_band_step cpe g) p)
    (fun k => (cpe.ch0 k, cpe.ch1 k))
  { cpe with ch0 := fun k => (res k).1, ch1 := fun k => (res k).2 }

/-- Membership of an in-band address in some other band-window region forces
all the indices to agree (the band regions of the layout are disjoint). -/
theorem ms_region_uniq (glen off : ℕ → ℕ) (n : ℕ)
    (hoff : StrictOffsets off n) (hbound : off n ≤ 128)
    (g0 w0 i0 k g1 w1 i1 : ℕ)
    (hw0 : w0 < glen g0) (hi0 : i0 < n) (hk1 : off i0 ≤ k) (hk2 : k < off (i0 + 1))
    (hw1 : w1 < glen g1) (hi1 : i1 < n)
    (hmem : 128 * (winBase glen g1 + w1) + off i1 ≤ 128 * (winBase glen g0 + w0) + k ∧
      128 * (winBase glen g0 + w0) + k <
        128 * (winBase glen g1 + w1) + off i1 + (off (i1 + 1) - off i1)) :
    g1 = g0 ∧ w1 = w0 ∧ i1 = i0 := by
  have hmono : off i1 ≤ off (i1 + 1) := le_of_lt (hoff i1 hi1)
  have hk' : off i1 ≤ 128 * (winBase glen g0 + w0) + k - 128 * (winBase glen g1 + w1) ∧
      128 * (winBase glen g0 + w0) + k - 128 * (winBase glen g1 + w1) < off (i1 + 1) := by
    omega
  have haeq : 128 * (winBase glen g1 + w1) +
      (128 * (winBase glen g0 + w0) + k - 128 * (winBase glen g1 + w1)) =
      128 * (winBase glen g0 + w0) + k := by omega
  have h := addr_uniq glen off n hoff hbound g1 w1 i1
    (128 * (winBase glen g0 + w0) + k - 128 * (winBase glen g1 + w1))
    g0 w0 i0 k hw1 hi1 hk'.1 hk'.2 hw0 hi0 hk1 hk2 haeq
  exact ⟨h.1, h.2.1, h.2.2.1⟩

/-- If address a lies in no window of band (g, i), the per-window loop of that
band leaves a unchanged. -/
theorem ms_band_windows_preserve (ics : ICS) (g i a : ℕ)
    (h : ∀ w, w < ics.group_len g →
      ¬(128 * (winBase ics.group_len g + w) + ics.swb_offset i ≤ a ∧
        a < 128 * (winBase ics.group_len g + w) + ics.swb_offset i +
          (ics.swb_offset (i + 1) - ics.swb_offset i))) :
    ∀ p, ms_band_windows ics g i p a = p a := by
  intro p
  apply foldl_preserve
  intro s w hw
  simp only [butterflies]
  rw [if_neg (h w (List.mem_range.mp hw))]

/-- Inside window w0 of band (g, i), the per-window loop of that band applies
exactly one butterfly to the original values at that address. -/
theorem ms_band_windows_write (ics : ICS) (g i w0 k : ℕ)
    (hoff : StrictOffsets ics.swb_offset ics.max_sfb)
    (hbound : ics.swb_offset ics.max_sfb ≤ 128)
    (hi : i < ics.max_sfb) (hw0 : w0 < ics.group_len g)
    (hk1 : ics.swb_offset i ≤ k) (hk2 : k < ics.swb_offset (i + 1)) :
    ∀ p, ms_band_windows ics g i p (128 * (winBase ics.group_len g + w0) + k) =
      ((p (128 * (winBase ics.group_len g + w0) + k)).1 +
        (p (128 * (winBase ics.group_len g + w0) + k)).2,
       (p (128 * (winBase ics.group_len g + w0) + k)).1 -
        (p (128 * (winBase ics.group_len g + w0) + k)).2) := by
  have hmono : ics.swb_offset i ≤ ics.swb_offset (i + 1) := le_of_lt (hoff i hi)
  intro p
  show (List.range (ics.group_len g)).foldl
      (fun q w => butterflies q
        (128 * (winBase ics.group_len g + w) + ics.swb_offset i)
        (ics.swb_offset (i + 1) - ics.swb_offset i)) p
      (128 * (winBase ics.group_len g + w0) + k) = _
  refine foldl_write_once _ _ (fun v => (v.1 + v.2, v.1 - v.2)) _ w0
    (List.nodup_range _) (List.mem_range.mpr hw0) ?_ ?_ p
  · intro s w hw hne
    simp only [butterflies]
    rw [if_neg]
    intro hmem
    have h := ms_region_uniq ics.group_len ics.swb_offset ics.max_sfb hoff hbound
      g w0 i k g w i hw0 hi hk1 hk2 (List.mem_range.mp hw) hi hmem
    exact hne h.2.1
  · intro s
    simp only [butterflies]
    rw [if_pos (by omega)]

/-- If address a lies in no window of any masked band of group g, the band
loop of group g leaves a unchanged. -/
theorem ms_bands_preserve (cpe : CPE) (g a : ℕ)
    (h : ∀ i, i < cpe.ics0.max_sfb → msCond cpe (g * cpe.ics0.max_sfb + i) →
      ∀ w, w < cpe.ics0.group_len g →
        ¬(128 * (winBase cpe.ics0.group_len g + w) + cpe.ics0.swb_offset i ≤ a ∧
          a < 128 * (winBase cpe.ics0.group_len g + w) + cpe.ics0.swb_offset i +
            (cpe.ics0.swb_offset (i + 1) - cpe.ics0.swb_offset i))) :
    ∀ p, (List.range cpe.ics0.max_sfb).foldl (ms_band_step cpe g) p a = p a := by
  intro p
  apply foldl_preserve
  intro s i hi
  rw [ms_band_step]
  by_cases hc : msCond cpe (g * cpe.ics0.max_sfb + i)
  · rw [if_pos hc]
    exact ms_band_windows_preserve cpe.ics0 g i a (h i (List.mem_range.mp hi) hc) s
  · rw [if_neg hc]

/-- Inside window w0 of a masked band (g, i0), the band loop of group g
applies exactly one butterfly to the original values at that address. -/
theorem ms_bands_write (cpe : CPE) (g i0 w0 k : ℕ)
    (hoff : StrictOffsets cpe.ics0.swb_offset cpe.ics0.max_sfb)
    (hbound : cpe.ics0.swb_offset cpe.ics0.max_sfb ≤ 128)
    (hi0 : i0 < cpe.ics0.max_sfb) (hw0 : w0 < cpe.ics0.group_len g)
    (hk1 : cpe.ics0.swb_offset i0 ≤ k) (hk2 : k < cpe.ics0.swb_offset (i0 + 1))
    (hcond : msCond cpe (g * cpe.ics0.max_sfb + i0)) :
    ∀ p, (List.range cpe.ics0.max_sfb).foldl (ms_band_step cpe g) p
      (128 * (winBase cpe.ics0.group_len g + w0) + k) =
      ((p (128 * (winBase cpe.ics0.group_len g + w0) + k)).1 +
        (p (128 * (winBase cpe.ics0.group_len g + w0) + k)).2,
       (p (128 * (winBase cpe.ics0.group_len g + w0) + k)).1 -
        (p (128 * (winBase cpe.ics0.group_len g + w0) + k)).2) := by
  intro p
  refine foldl_write_once _ _ (fun v => (v.1 + v.2, v.1 - v.2)) _ i0
    (List.nodup_range _) (List.mem_range.mpr hi0) ?_ ?_ p
  · intro s i hi hne
    rw [ms_band_step]
    by_cases hc : msCond cpe (g * cpe.ics0.max_sfb + i)
    · rw [if_pos hc]
      apply ms_band_windows_preserve
      intro w hw hmem
      have h := ms_region_uniq cpe.ics0.group_len cpe.ics0.swb_offset
        cpe.ics0.max_sfb hoff hbound g w0 i0 k g w i hw0 hi0 hk1 hk2 hw
        (List.mem_range.mp hi) hmem
      exact hne h.2.2
    · rw [if_neg hc]
  · intro s
    rw [ms_band_step, if_pos hcond]
    exact ms_band_windows_write cpe.ics0 g i0 w0 k hoff hbound hi0 hw0 hk1 hk2 s

/-- C1 (amended): in apply_mid_side_stereo, the coefficient range of band
(g, i) is replaced, in every window of the group, by the sum (channel 0) and
difference (channel 1) of the two channels exactly when ms_mask[idx] is set
AND both channels' band_type[idx] < NOISE — that is, bands typed NOISE,
INTENSITY or INTENSITY_ALT are excluded, not only NOISE.  All other bands are
left untouched in both channels. -/
theorem apply_mid_side_stereo_char (cpe : CPE)
    (hoff : StrictOffsets cpe.ics0.swb_offset cpe.ics0.max_sfb)
    (hbound : cpe.ics0.swb_offset cpe.ics0.max_sfb ≤ 128)
    (g w i k : ℕ)
    (hg : g < cpe.ics0.num_window_groups)
    (hw : w < cpe.ics0.group_len g)
    (hi : i < cpe.ics0.max_sfb)
    (hk1 : cpe.ics0.swb_offset i ≤ k) (hk2 : k < cpe.ics0.swb_offset (i + 1)) :
    (msCond cpe (g * cpe.ics0.max_sfb + i) →
      (apply_mid_side_stereo cpe).ch0 (128 * (winBase cpe.ics0.group_len g + w) + k) =
        cpe.ch0 (128 * (winBase cpe.ics0.group_len g + w) + k) +
        cpe.ch1 (128 * (winBase cpe.ics0.group_len g + w) + k) ∧
      (apply_mid_side_stereo cpe).ch1 (128 * (winBase cpe.ics0.group_len g + w) + k) =
        cpe.ch0 (128 * (winBase cpe.ics0.group_len g + w) + k) -
        cpe.ch1 (128 * (winBase cpe.ics0.group_len g + w) + k)) ∧
    (¬msCond cpe (g * cpe.ics0.max_sfb + i) →
      (apply_mid_side_stereo cpe).ch0 (128 * (winBase cpe.ics0.group_len g + w) + k) =
        cpe.ch0 (128 * (winBase cpe.ics0.group_len g + w) + k) ∧
      (apply_mid_side_stereo cpe).ch1 (128 * (winBase cpe.ics0.group_len g + w) + k) =
        cpe.ch1 (128 * (winBase cpe.ics0.group_len g + w) + k)) := by
  constructor
  · intro hcond
    have hres : ((List.range cpe.ics0.num_window_groups).foldl
        (fun p g => (List.range cpe.ics0.max_sfb).foldl (ms_band_step cpe g) p)
        (fun a => (cpe.ch0 a, cpe.ch1 a)))
        (128 * (winBase cpe.ics0.group_len g + w) + k) =
        (cpe.ch0 (128 * (winBase cpe.ics0.group_len g + w) + k) +
          cpe.ch1 (128 * (winBase cpe.ics0.group_len g + w) + k),
         cpe.ch0 (128 * (winBase cpe.ics0.group_len g + w) + k) -
          cpe.ch1 (128 * (winBase cpe.ics0.group_len g + w) + k)) := by
      refine foldl_write_once _ _ (fun v => (v.1 + v.2, v.1 - v.2)) _ g
        (List.nodup_range _) (List.mem_range.mpr hg) ?_ ?_ _
      · intro s g1 hg1 hne
        apply ms_bands_preserve
        intro i1 hi1 hc1 w1 hw1 hmem
        have h := ms_region_uniq cpe.ics0.group_len cpe.ics0.swb_offset
          cpe.ics0.max_sfb hoff hbound g w i k g1 w1 i1 hw hi hk1 hk2 hw1 hi1 hmem
        exact hne h.1
      · intro s
        exact ms_bands_write cpe g i w k hoff hbound hi hw hk1 hk2 hcond s
    constructor
    · show ((List.range cpe.ics0.num_window_groups).foldl
        (fun p g => (List.range cpe.ics0.max_sfb).foldl (ms_band_step cpe g) p)
        (fun a => (cpe.ch0 a, cpe.ch1 a))
        (128 * (winBase cpe.ics0.group_len g + w) + k)).1 = _
      rw [hres]
    · show ((List.range cpe.ics0.num_window_groups).foldl
        (fun p g => (List.range cpe.ics0.max_sfb).foldl (ms_band_step cpe g) p)
        (fun a => (cpe.ch0 a, cpe.ch1 a))
        (128 * (winBase cpe.ics0.group_len g + w) + k)).2 = _
      rw [hres]
  · intro hcond
    have hres : ((List.range cpe.ics0.num_window_groups).foldl
        (fun p g => (List.range cpe.ics0.max_sfb).foldl (ms_band_step cpe g) p)
        (fun a => (cpe.ch0 a, cpe.ch1 a)))
        (128 * (winBase cpe.ics0.group_len g + w) + k) =
        (cpe.ch0 (128 * (winBase cpe.ics0.group_len g + w) + k),
         cpe.ch1 (128 * (winBase cpe.ics0.group_len g + w) + k)) := by
      refine foldl_preserve _ _ _ ?_ _
      intro s g1 hg1
      apply ms_bands_preserve
      intro i1 hi1 hc1 w1 hw1 hmem
      have h := ms_region_uniq cpe.ics0.group_len cpe.ics0.swb_offset
        cpe.ics0.max_sfb hoff hbound g w i k g1 w1 i1 hw hi hk1 hk2 hw1 hi1 hmem
      apply hcond
      have hg' : g1 = g := h.1
      have hw' : w1 = w := h.2.1
      have hi' : i1 = i := h.2.2
      rw [hg', hi'] at hc1
      exact hc1
    constructor
    · show ((List.range cpe.ics0.num_window_groups).foldl
        (fun p g => (List.range cpe.ics0.max_sfb).foldl (ms_band_step cpe g) p)
        (fun a => (cpe.ch0 a, cpe.ch1 a))
        (128 * (winBase cpe.ics0.group_len g + w) + k)).1 = _
      rw [hres]
    · show ((List.range cpe.ics0.num_window_groups).foldl
        (fun p g => (List.range cpe.ics0.max_sfb).foldl (ms_band_step cpe g) p)
        (fun a => (cpe.ch0 a, cpe.ch1 a))
        (128 * (winBase cpe.ics0.group_len g + w) + k)).2 = _
      rw [hres]

/-- Concrete band layout for the stereo examples: one group of one window,
one band covering exactly coefficient 0. -/
def icsMS : ICS :=
  { num_window_groups := 1, group_len := fun _ => 1, max_sfb := 1,
    num_swb := 1, swb_offset := fun j => if j = 0 then 0 else 1,
    window_sequence := ONLY_LONG_SEQUENCE, num_windows := 1,
    tns_max_bands := 1, use_kb_window := false }

/-- Concrete channel pair for the C1 counterexample: the single band is
masked and both channels are INTENSITY-typed (hence not NOISE). -/
def cpeX1 : CPE :=
  { ics0 := icsMS, ics1 := icsMS,
    bt0 := fun _ => INTENSITY_BT, bt1 := fun _ => INTENSITY_BT,
    rend1 := fun _ => 1, ms_mask := fun _ => true, sf1 := fun _ => 0,
    ch0 := fun _ => 1, ch1 := fun _ => 2 }

/-- C1 counterexample: ms_mask[0] is set and neither channel's band type is
NOISE (both are INTENSITY), so the claim predicts the butterfly runs and
ch0 becomes 1 + 2 = 3; but apply_mid_side_stereo leaves both channels
untouched, because the C gate is band_type < NOISE_BT, which excludes
INTENSITY and INTENSITY_ALT bands as well as NOISE ones. -/
theorem apply_mid_side_stereo_intensity_band_cex :
    cpeX1.ms_mask 0 = true ∧ cpeX1.bt0 0 ≠ NOISE_BT ∧ cpeX1.bt1 0 ≠ NOISE_BT ∧
    cpeX1.ics0.swb_offset 0 = 0 ∧ cpeX1.ics0.swb_offset 1 = 1 ∧
    cpeX1.ch0 0 = 1 ∧ cpeX1.ch1 0 = 2 ∧
    (apply_mid_side_stereo cpeX1).ch0 0 = 1 ∧
    (apply_mid_side_stereo cpeX1).ch1 0 = 2 := by
  decide

/-- Concrete channel pair for the C1 witness: one masked normal-typed band. -/
def cpeW1 : CPE :=
  { ics0 := icsMS, ics1 := icsMS,
    bt0 := fun _ => 1, bt1 := fun _ => 1,
    rend1 := fun _ => 1, ms_mask := fun _ => true, sf1 := fun _ => 0,
    ch0 := fun _ => 5, ch1 := fun _ => 3 }

/-- Witness for apply_mid_side_stereo_char at a concrete masked band. -/
theorem apply_mid_side_stereo_char_witness :
    (apply_mid_side_stereo cpeW1).ch0 (128 * (winBase cpeW1.ics0.group_len 0 + 0) + 0) =
      cpeW1.ch0 (128 * (winBase cpeW1.ics0.group_len 0 + 0) + 0) +
      cpeW1.ch1 (128 * (winBase cpeW1.ics0.group_len 0 + 0) + 0) ∧
    (apply_mid_side_stereo cpeW1).ch1 (128 * (winBase cpeW1.ics0.group_len 0 + 0) + 0) =
      cpeW1.ch0 (128 * (winBase cpeW1.ics0.group_len 0 + 0) + 0) -
      cpeW1.ch1 (128 * (winBase cpeW1.ics0.group_len 0 + 0) + 0) :=
  (apply_mid_side_stereo_char cpeW1 (by decide) (by decide) 0 0 0 0
    (by decide) (by decide) (by decide) (by decide) (by decide)).1 (by decide)

/-! ### Intensity stereo (apply_intensity_stereo) -/

/-- The scaled-copy primitive (vector_fmul_scalar / subband_scale) over the
coefficient range [a, a + len): dst[k] = src[k] * mul. -/
def vector_fmul_scalar (dst src : ℕ → ℚ) (mul : ℚ) (a len : ℕ) : ℕ → ℚ :=
  fun k => if a ≤ k ∧ k < a + len then src k * mul else dst k

/-- Per-band intensity scale: c = -1 + 2 * (band_type[idx] - 14), re-signed
by 1 - 2 * ms_mask[idx] when ms_present is nonzero, times sf[idx]. -/
def intensity_scale (cpe : CPE) (ms_present idx : ℕ) : ℚ :=
  let c : ℤ := -1 + 2 * ((cpe.bt1 idx : ℤ) - 14)
  let c2 : ℤ :=
    if ms_present ≠ 0 then c * (1 - 2 * (if cpe.ms_mask idx then (1 : ℤ) else 0))
    else c
  (c2 : ℚ) * cpe.sf1 idx

/-- One band of an intensity run: a scaled copy from channel 0 into channel 1
over the band's range, for every window of group g. -/
def int_band_step (cpe : CPE) (ms_present g : ℕ) (c1 : ℕ → ℚ) (i : ℕ) : ℕ → ℚ :=
  (List.range (cpe.ics1.group_len g)).foldl
    (fun cc w => vector_fmul_scalar cc cpe.ch0
      (intensity_scale cpe ms_present (g * cpe.ics1.max_sfb + i))
      (128 * (winBase cpe.ics1.group_len g + w) + cpe.ics1.swb_offset i)
      (cpe.ics1.swb_offset (i + 1) - cpe.ics1.swb_offset i)) c1

/-- The run-walking band loop of one group of apply_intensity_stereo:
an intensity-headed run processes its bands one by one; any other run is
skipped by advancing i and idx by the run length without touching memory.
fuel bounds the iteration count (see file header). -/
def int_group (cpe : CPE) (ms_present g : ℕ) : ℕ → ℕ → (ℕ → ℚ) → (ℕ → ℚ)
  | 0, _, c1 => c1
  | fuel + 1, i, c1 =>
    if i < cpe.ics1.max_sfb then
      if cpe.bt1 (g * cpe.ics1.max_sfb + i) = INTENSITY_BT ∨
          cpe.bt1 (g * cpe.ics1.max_sfb + i) = INTENSITY_BT2 then
        int_group cpe ms_present g fuel
          (i + (cpe.rend1 (g * cpe.ics1.max_sfb + i) - i))
          ((List.range (cpe.rend1 (g * cpe.ics1.max_sfb + i) - i)).foldl
            (fun cc j => int_band_step cpe ms_present g cc (i + j)) c1)
      else
        int_group cpe ms_present g fuel
          (i + (cpe.rend1 (g * cpe.ics1.max_sfb + i) - i)) c1
    else c1

/-- apply_intensity_stereo: the loop over window groups.  Only channel 1's
coefficients are ever written; channel 0 is the read-only source. -/
def apply_intensity_stereo (cpe : CPE) (ms_present : ℕ) : CPE :=
  let res := (List.range cpe.ics1.num_window_groups).foldl
    (fun c1 g => int_group cpe ms_present g (cpe.ics1.max_sfb + 1) 0 c1) cpe.ch1
  { cpe with ch1 := res }

/-- If address a lies in no window of band (g, i), the scaled copies of that
band leave a unchanged. -/
theorem int_band_step_preserve (cpe : CPE) (ms_present g i a : ℕ)
    (h : ∀ w, w < cpe.ics1.group_len g →
      ¬(128 * (winBase cpe.ics1.group_len g + w) + cpe.ics1.swb_offset i ≤ a ∧
        a < 128 * (winBase cpe.ics1.group_len g + w) + cpe.ics1.swb_offset i +
          (cpe.ics1.swb_offset (i + 1) - cpe.ics1.swb_offset i))) :
    ∀ c1, int_band_step cpe ms_present g c1 i a = c1 a := by
  intro c1
  apply foldl_preserve
  intro s w hw
  simp only [vector_fmul_scalar]
  rw [if_neg (h w (List.mem_range.mp hw))]

/-- If address a lies in no window of any intensity-typed band of group g,
the whole run loop of group g leaves a unchanged (well-formed runs: every
band inside an intensity-headed run is itself intensity-typed). -/
theorem int_group_preserve (cpe : CPE) (ms_present g a : ℕ)
    (hWF : ∀ i, i < cpe.ics1.max_sfb →
      i < cpe.rend1 (g * cpe.ics1.max_sfb + i) ∧
      cpe.rend1 (g * cpe.ics1.max_sfb + i) ≤ cpe.ics1.max_sfb ∧
      ∀ j, j < cpe.rend1 (g * cpe.ics1.max_sfb + i) → i ≤ j →
        cpe.bt1 (g * cpe.ics1.max_sfb + j) = cpe.bt1 (g * cpe.ics1.max_sfb + i))
    (h : ∀ i, i < cpe.ics1.max_sfb →
      (cpe.bt1 (g * cpe.ics1.max_sfb + i) = INTENSITY_BT ∨
        cpe.bt1 (g * cpe.ics1.max_sfb + i) = INTENSITY_BT2) →
      ∀ w, w < cpe.ics1.group_len g →
        ¬(128 * (winBase cpe.ics1.group_len g + w) + cpe.ics1.swb_offset i ≤ a ∧
          a < 128 * (winBase cpe.ics1.group_len g + w) + cpe.ics1.swb_offset i +
            (cpe.ics1.swb_offset (i + 1) - cpe.ics1.swb_offset i))) :
    ∀ fuel i c1, int_group cpe ms_present g fuel i c1 a = c1 a := by
  intro fuel
  induction fuel with
  | zero => intro i c1; rfl
  | succ fuel ih =>
    intro i c1
    rw [int_group]
    by_cases hi : i < cpe.ics1.max_sfb
    · rw [if_pos hi]
      by_cases hbt : cpe.bt1 (g * cpe.ics1.max_sfb + i) = INTENSITY_BT ∨
          cpe.bt1 (g * cpe.ics1.max_sfb + i) = INTENSITY_BT2
      · rw [if_pos hbt, ih]
        apply foldl_preserve
        intro s j hj
        have hj' : j < cpe.rend1 (g * cpe.ics1.max_sfb + i) - i :=
          List.mem_range.mp hj
        have hWFi := hWF i hi
        have hle : i + j < cpe.ics1.max_sfb := by omega
        have hbtj := hWFi.2.2 (i + j) (by omega) (by omega)
        apply int_band_step_preserve
        apply h (i + j) hle
        rw [hbtj]
        exact hbt
      · rw [if_neg hbt, ih]
    · rw [if_neg hi]

/-- C8: apply_intensity_stereo leaves both channels' coefficient ranges of
every band whose second-channel band type is neither INTENSITY nor
INTENSITY_ALT bit-for-bit unchanged (such runs only advance the indices);
channel 0 is never written at all. -/
theorem apply_intensity_stereo_skip_unchanged (cpe : CPE) (ms_present : ℕ)
    (hoff : StrictOffsets cpe.ics1.swb_offset cpe.ics1.max_sfb)
    (hbound : cpe.ics1.swb_offset cpe.ics1.max_sfb ≤ 128)
    (hWF : RunWF cpe.bt1 cpe.rend1 cpe.ics1.num_window_groups cpe.ics1.max_sfb)
    (g w i k : ℕ)
    (hg : g < cpe.ics1.num_window_groups) (hw : w < cpe.ics1.group_len g)
    (hi : i < cpe.ics1.max_sfb)
    (hk1 : cpe.ics1.swb_offset i ≤ k) (hk2 : k < cpe.ics1.swb_offset (i + 1))
    (hbt : cpe.bt1 (g * cpe.ics1.max_sfb + i) ≠ INTENSITY_BT ∧
        cpe.bt1 (g * cpe.ics1.max_sfb + i) ≠ INTENSITY_BT2) :
    (apply_intensity_stereo cpe ms_present).ch0
        (128 * (winBase cpe.ics1.group_len g + w) + k) =
      cpe.ch0 (128 * (winBase cpe.ics1.group_len g + w) + k) ∧
    (apply_intensity_stereo cpe ms_present).ch1
        (128 * (winBase cpe.ics1.group_len g + w) + k) =
      cpe.ch1 (128 * (winBase cpe.ics1.group_len g + w) + k) := by
  constructor
  · rfl
  · show (List.range cpe.ics1.num_window_groups).foldl
      (fun c1 g => int_group cpe ms_present g (cpe.ics1.max_sfb + 1) 0 c1)
      cpe.ch1 (128 * (winBase cpe.ics1.group_len g + w) + k) = _
    apply foldl_preserve
    intro s g1 hg1
    apply int_group_preserve cpe ms_present g1 _
      (fun i1 hi1 => hWF g1 (List.mem_range.mp hg1) i1 hi1)
    intro i1 hi1 hbt1 w1 hw1 hmem
    have h := ms_region_uniq cpe.ics1.group_len cpe.ics1.swb_offset
      cpe.ics1.max_sfb hoff hbound g w i k g1 w1 i1 hw hi hk1 hk2 hw1 hi1 hmem
    rcases h with ⟨hg', hw', hi'⟩
    rw [hg', hi'] at hbt1
    rcases hbt1 with h15 | h14
    · exact hbt.1 h15
    · exact hbt.2 h14

/-- Concrete channel pair for the C8 witness: the single band of the second
channel is a normal spectral band (type 1), so intensity must not touch it. -/
def cpeW8 : CPE :=
  { ics0 := icsMS, ics1 := icsMS,
    bt0 := fun _ => 1, bt1 := fun _ => 1,
    rend1 := fun _ => 1, ms_mask := fun _ => false, sf1 := fun _ => 2,
    ch0 := fun _ => 5, ch1 := fun _ => 7 }

/-- Witness for apply_intensity_stereo_skip_unchanged at a concrete state. -/
theorem apply_intensity_stereo_skip_unchanged_witness :
    (apply_intensity_stereo cpeW8 1).ch0
        (128 * (winBase cpeW8.ics1.group_len 0 + 0) + 0) =
      cpeW8.ch0 (128 * (winBase cpeW8.ics1.group_len 0 + 0) + 0) ∧
    (apply_intensity_stereo cpeW8 1).ch1
        (128 * (winBase cpeW8.ics1.group_len 0 + 0) + 0) =
      cpeW8.ch1 (128 * (winBase cpeW8.ics1.group_len 0 + 0) + 0) :=
  apply_intensity_stereo_skip_unchanged cpeW8 1 (by decide) (by decide)
    (by decide) 0 0 0 0 (by decide) (by decide) (by decide) (by decide)
    (by decide) (by decide)

/-! ### Temporal Noise Shaping (apply_tns)

The lpc coefficient conversion compute_lpc_coefs is the external collaborator
lpcOf : quantized coefficient array → order → taps. -/

/-- One sample of the AR (decode-direction) recursion: the sample at
start ± m is reduced by the weighted sum of the min(m, order) preceding
already-updated samples of the span (C loop: coef[start] -=
coef[start - i*inc] * lpc[i-1], i = 1..min(m, order)).  dir true is the
reversed traversal (inc = -1). -/
def tns_ar_step (lpc : ℕ → ℚ) (order : ℕ) (dir : Bool) (startPos : ℕ)
    (c : ℕ → ℚ) (m : ℕ) : ℕ → ℚ :=
  let pos := if dir then startPos - m else startPos + m
  Function.update c pos
    ((List.range (min m order)).foldl
      (fun acc i => acc - c (if dir then pos + (i + 1) else pos - (i + 1)) * lpc i)
      (c pos))

/-- One sample of the MA (synthesis-direction) recursion: the current input
is saved into the shift register slot 0, the output accumulates the previous
min(m, order) pre-filter inputs (tmp[1..]), and the register is shifted. -/
def tns_ma_step (lpc : ℕ → ℚ) (order : ℕ) (dir : Bool) (startPos : ℕ)
    (p : (ℕ → ℚ) × (ℕ → ℚ)) (m : ℕ) : (ℕ → ℚ) × (ℕ → ℚ) :=
  let pos := if dir then startPos - m else startPos + m
  let tmp0 := Function.update p.2 0 (p.1 pos)
  let v := (List.range (min m order)).foldl
    (fun acc i => acc + tmp0 (i + 1) * lpc i) (p.1 pos)
  (Function.update p.1 pos v,
   fun j => if 1 ≤ j ∧ j ≤ order then tmp0 (j - 1) else tmp0 j)

/-- One TNS filter slot (the body of the filt loop): the carried state is the
running bottom band and the spectrum.  The filter's band span [bottom, top)
is clipped to mmm = min(tns_max_bands, max_sfb) and mapped through
swb_offset; zero-order filters and empty spans are skipped (after updating
bottom).  The shift register of the MA path is modelled fresh per filter:
the min(m, order) ramp guarantees only slots written by this filter are
read. -/
def tns_filter_step (lpcOf : (ℕ → ℚ) → ℕ → ℕ → ℚ) (tns : TNS) (ics : ICS)
    (decode : Bool) (w : ℕ) (st : ℕ × (ℕ → ℚ)) (filt : ℕ) : ℕ × (ℕ → ℚ) :=
  let mmm := min ics.tns_max_bands ics.max_sfb
  let top := st.1
  let bottom := top - tns.length w filt
  let order := tns.order w filt
  if order = 0 then (bottom, st.2)
  else
    let lpc := lpcOf (tns.coefArr w filt) order
    let start := ics.swb_offset (min bottom mmm)
    let stop := ics.swb_offset (min top mmm)
    if stop ≤ start then (bottom, st.2)
    else
      let size := stop - start
      let dir := tns.direction w filt
      let startPos := (if dir then stop - 1 else start) + w * 128
      if decode then
        (bottom, (List.range size).foldl (tns_ar_step lpc order dir startPos) st.2)
      else
        (bottom, ((List.range size).foldl (tns_ma_step lpc order dir startPos)
          (st.2, fun _ => 0)).1)

/-- apply_tns: early return when min(tns_max_bands, max_sfb) = 0; otherwise
the filt loop runs per window with bottom starting at num_swb. -/
def apply_tns (lpcOf : (ℕ → ℚ) → ℕ → ℕ → ℚ) (tns : TNS) (ics : ICS)
    (decode : Bool) (coef : ℕ → ℚ) : ℕ → ℚ :=
  if min ics.tns_max_bands ics.max_sfb = 0 then coef
  else
    (List.range ics.num_windows).foldl
      (fun c w => ((List.range (tns.n_filt w)).foldl
        (tns_filter_step lpcOf tns ics decode w) (ics.num_swb, c)).2)
      coef

/-- C9: a (window, filter) pair with transmitted order 0 leaves the spectrum
bit-for-bit unchanged, as does one whose band span, mapped through swb_offset
and clipped to mmm = min(tns_max_bands, max_sfb), is empty; and when mmm = 0
the entire apply_tns call modifies nothing. -/
theorem apply_tns_noop_cases (lpcOf : (ℕ → ℚ) → ℕ → ℕ → ℚ) (tns : TNS)
    (ics : ICS) (decode : Bool) (coef : ℕ → ℚ) :
    (min ics.tns_max_bands ics.max_sfb = 0 →
      apply_tns lpcOf tns ics decode coef = coef) ∧
    (∀ w filt bottom c, tns.order w filt = 0 →
      (tns_filter_step lpcOf tns ics decode w (bottom, c) filt).2 = c) ∧
    (∀ w filt bottom c,
      ics.swb_offset (min bottom (min ics.tns_max_bands ics.max_sfb)) ≤
        ics.swb_offset (min (bottom - tns.length w filt)
          (min ics.tns_max_bands ics.max_sfb)) →
      (tns_filter_step lpcOf tns ics decode w (bottom, c) filt).2 = c) := by
  refine ⟨?_, ?_, ?_⟩
  · intro h
    rw [apply_tns, if_pos h]
  · intro w filt bottom c h
    rw [tns_filter_step, if_pos h]
  · intro w filt bottom c h
    rw [tns_filter_step]
    by_cases ho : tns.order w filt = 0
    · rw [if_pos ho]
    · rw [if_neg ho, if_pos h]

/-- Concrete TNS parameters for the C9 witness: one zero-order filter and one
filter with an empty span (zero length). -/
def tnsW9 : TNS :=
  { present := true, n_filt := fun _ => 2,
    length := fun _ filt => if filt = 0 then 1 else 0,
    order := fun _ filt => if filt = 0 then 0 else 3,
    direction := fun _ _ => false,
    coefArr := fun _ _ _ => 1 }

/-- Concrete layout for the C9 witness: num_swb = 1 band, tns_max_bands 1. -/
def icsW9 : ICS :=
  { num_window_groups := 1, group_len := fun _ => 1, max_sfb := 1,
    num_swb := 1, swb_offset := fun j => if j = 0 then 0 else 4,
    window_sequence := ONLY_LONG_SEQUENCE, num_windows := 1,
    tns_max_bands := 1, use_kb_window := false }

/-- Concrete layout with mmm = 0 for the first clause of the C9 witness. -/
def icsW9z : ICS :=
  { icsW9 with tns_max_bands := 0 }

/-- Witness for apply_tns_noop_cases: all three no-op clauses instantiated at
concrete inputs. -/
theorem apply_tns_noop_cases_witness :
    (apply_tns (fun _ _ _ => 1) tnsW9 icsW9z true (fun _ => 9) = (fun _ => 9)) ∧
    ((tns_filter_step (fun _ _ _ => 1) tnsW9 icsW9 true 0 (1, fun _ => 9) 0).2 =
      (fun _ => 9)) ∧
    ((tns_filter_step (fun _ _ _ => 1) tnsW9 icsW9 true 0 (0, fun _ => 9) 1).2 =
      (fun _ => 9)) :=
  ⟨(apply_tns_noop_cases (fun _ _ _ => 1) tnsW9 icsW9z true (fun _ => 9)).1
      (by decide),
   (apply_tns_noop_cases (fun _ _ _ => 1) tnsW9 icsW9 true (fun _ => 9)).2.1
      0 0 1 (fun _ => 9) (by decide),
   (apply_tns_noop_cases (fun _ _ _ => 1) tnsW9 icsW9 true (fun _ => 9)).2.2
      0 1 0 (fun _ => 9) (by decide)⟩

/-! ### Long-term prediction (apply_ltp, update_ltp) -/

/-- The 2048-sample time-domain prediction buffer built by apply_ltp into the
channel's output buffer (predTime): num_samples = lag + 1024 when lag < 1024,
else 2048; those samples are ltp_state[i + 2048 - lag] scaled by the
prediction coefficient (AAC_MUL30); the memset zeroes the rest of the 2048;
entries beyond 2048 keep the output buffer's previous contents.  (The C index
i + 2048 - lag is done in int; it is nonnegative for the transmitted
lag < 2048, where it agrees with the ℕ subtraction used here.) -/
def ltp_predTime (sce : SCE) : ℕ → ℚ := fun k =>
  if k < (if sce.ltp.lag < 1024 then sce.ltp.lag + 1024 else 2048) then
    sce.ltp_state (k + 2048 - sce.ltp.lag) * sce.ltp.coef
  else if k < 2048 then 0
  else sce.output k

/-- apply_ltp: for a non-eight-short block, build predTime in sce->output,
transform it through the external windowing_and_mdct_ltp collaborator into
ac->buf_mdct (predFreq), re-apply TNS in the synthesis (MA) direction when
present, and add the predicted coefficients of every used band below
min(max_sfb, MAX_LTP_LONG_SFB) into sce->coeffs.  An eight-short block is
left entirely unmodified. -/
def apply_ltp (ctx : AACCtx) (sce : SCE) : SCE × AACCtx :=
  if sce.ics.window_sequence = EIGHT_SHORT_SEQUENCE then (sce, ctx)
  else
    let predTime := ltp_predTime sce
    let predFreq0 := ctx.wml predTime sce.ics
    let predFreq :=
      if sce.tns.present then apply_tns ctx.lpcOf sce.tns sce.ics false predFreq0
      else predFreq0
    let newCoeffs := (List.range (min sce.ics.max_sfb MAX_LTP_LONG_SFB)).foldl
      (fun c sfb =>
        if sce.ltp.used sfb then
          fun k =>
            if sce.ics.swb_offset sfb ≤ k ∧ k < sce.ics.swb_offset (sfb + 1) then
              c k + predFreq k
            else c k
        else c) sce.coeffs
    ({ sce with output := predTime, coeffs := newCoeffs },
     { ctx with buf_mdct := predFreq })

/-- The 1024-sample tail computed by update_ltp into the coeffs scratch
buffer (saved_ltp), per block type.  In the eight-short and long-start
branches the code first copies 512 (resp. 448) samples, zeroes [576, 1024),
then overwrites [448, 512) with vector_fmul_reverse(buf_mdct + 960,
swindow + 64, 64) and writes [512, 576) sample by sample; the per-index net
result is given here.  The long-stop / only-long branch windows
buf_mdct[512..1023] reversed over [0, 512) and individually over
[512, 1024). -/
def ltpTail (ctx : AACCtx) (sce : SCE) : ℕ → ℚ :=
  if sce.ics.window_sequence = EIGHT_SHORT_SEQUENCE then fun k =>
    if k < 448 then sce.saved k
    else if k < 512 then
      ctx.buf_mdct (960 + (k - 448)) *
        (if sce.ics.use_kb_window then ctx.aac_kbd_short_128 else ctx.sine_128)
          (64 + (63 - (k - 448)))
    else if k < 576 then
      ctx.buf_mdct (1023 - (k - 512)) *
        (if sce.ics.use_kb_window then ctx.aac_kbd_short_128 else ctx.sine_128)
          (63 - (k - 512))
    else 0
  else if sce.ics.window_sequence = LONG_START_SEQUENCE then fun k =>
    if k < 448 then ctx.buf_mdct (512 + k)
    else if k < 512 then
      ctx.buf_mdct (960 + (k - 448)) *
        (if sce.ics.use_kb_window then ctx.aac_kbd_short_128 else ctx.sine_128)
          (64 + (63 - (k - 448)))
    else if k < 576 then
      ctx.buf_mdct (1023 - (k - 512)) *
        (if sce.ics.use_kb_window then ctx.aac_kbd_short_128 else ctx.sine_128)
          (63 - (k - 512))
    else 0
  else fun k =>
    if k < 512 then
      ctx.buf_mdct (512 + k) *
        (if sce.ics.use_kb_window then ctx.aac_kbd_long_1024 else ctx.sine_1024)
          (512 + (511 - k))
    else
      ctx.buf_mdct (1023 - (k - 512)) *
        (if sce.ics.use_kb_window then ctx.aac_kbd_long_1024 else ctx.sine_1024)
          (511 - (k - 512))

/-- update_ltp: the tail is computed into the coeffs scratch buffer
(saved_ltp is sce->coeffs), then the ring buffer is shifted by three
memcpys: [0,1024) receives the old [1024,2048), [1024,2048) the frame's
time output, [2048,3072) the computed tail. -/
def update_ltp (ctx : AACCtx) (sce : SCE) : SCE :=
  let saved_ltp : ℕ → ℚ :=
    fun k => if k < 1024 then ltpTail ctx sce k else sce.coeffs k
  { sce with
    coeffs := saved_ltp,
    ltp_state := fun k =>
      if k < 1024 then sce.ltp_state (1024 + k)
      else if k < 2048 then sce.output (k - 1024)
      else if k < 3072 then saved_ltp (k - 2048)
      else sce.ltp_state k }

/-- One decoded frame from the LTP engine's viewpoint (the spec's
marker-frame scenario): the external synthesis stage delivers this frame's
time output into sce->output, then update_ltp runs with the frame's context
(buf_mdct, saved and the window tables). -/
def decodeStep (ctx : AACCtx) (frame : ℕ → ℚ) (sce : SCE) : SCE :=
  update_ltp ctx { sce with output := frame }

theorem update_ltp_ltp_state_lo (ctx : AACCtx) (sce : SCE) (k : ℕ)
    (hk : k < 1024) :
    (update_ltp ctx sce).ltp_state k = sce.ltp_state (1024 + k) := by
  show (if k < 1024 then sce.ltp_state (1024 + k)
    else if k < 2048 then sce.output (k - 1024)
    else if k < 3072 then
      (if k - 2048 < 1024 then ltpTail ctx sce (k - 2048)
       else sce.coeffs (k - 2048))
    else sce.ltp_state k) = _
  rw [if_pos hk]

theorem update_ltp_ltp_state_mid (ctx : AACCtx) (sce : SCE) (k : ℕ)
    (h1 : 1024 ≤ k) (h2 : k < 2048) :
    (update_ltp ctx sce).ltp_state k = sce.output (k - 1024) := by
  show (if k < 1024 then sce.ltp_state (1024 + k)
    else if k < 2048 then sce.output (k - 1024)
    else if k < 3072 then
      (if k - 2048 < 1024 then ltpTail ctx sce (k - 2048)
       else sce.coeffs (k - 2048))
    else sce.ltp_state k) = _
  rw [if_neg (by omega), if_pos h2]

theorem update_ltp_ltp_state_hi (ctx : AACCtx) (sce : SCE) (k : ℕ)
    (h1 : 2048 ≤ k) (h2 : k < 3072) :
    (update_ltp ctx sce).ltp_state k = ltpTail ctx sce (k - 2048) := by
  show (if k < 1024 then sce.ltp_state (1024 + k)
    else if k < 2048 then sce.output (k - 1024)
    else if k < 3072 then
      (if k - 2048 < 1024 then ltpTail ctx sce (k - 2048)
       else sce.coeffs (k - 2048))
    else sce.ltp_state k) = _
  rw [if_neg (by omega), if_neg (by omega), if_pos h2, if_pos (by omega)]

/-- C5: for a non-eight-short block apply_ltp builds the 2048-sample
prediction buffer in the channel's output buffer: the first
min(lag + 1024, 2048) entries are ltp_state[k + 2048 - lag] scaled by the
single prediction coefficient, the remaining entries up to 2048 are zero;
for an eight-short block apply_ltp modifies nothing at all. -/
theorem apply_ltp_pred_buffer (ctx : AACCtx) (sce : SCE) :
    (sce.ics.window_sequence = EIGHT_SHORT_SEQUENCE →
      apply_ltp ctx sce = (sce, ctx)) ∧
    (sce.ics.window_sequence ≠ EIGHT_SHORT_SEQUENCE →
      (∀ k, k < min (sce.ltp.lag + 1024) 2048 →
        (apply_ltp ctx sce).1.output k =
          sce.ltp_state (k + 2048 - sce.ltp.lag) * sce.ltp.coef) ∧
      (∀ k, min (sce.ltp.lag + 1024) 2048 ≤ k → k < 2048 →
        (apply_ltp ctx sce).1.output k = 0)) := by
  have hnum : (if sce.ltp.lag < 1024 then sce.ltp.lag + 1024 else 2048) =
      min (sce.ltp.lag + 1024) 2048 := by
    split_ifs with h1 <;> omega
  constructor
  · intro h
    rw [apply_ltp, if_pos h]
  · intro h
    have h1 : (apply_ltp ctx sce).1.output = ltp_predTime sce := by
      rw [apply_ltp, if_neg h]
    constructor
    · intro k hk
      rw [h1]
      simp only [ltp_predTime]
      rw [hnum, if_pos hk]
    · intro k hk1 hk2
      rw [h1]
      simp only [ltp_predTime]
      rw [hnum, if_neg (by omega), if_pos hk2]

/-- All-zero context for the LTP examples (zero buf_mdct and window tables,
trivial collaborators). -/
def ctxY : AACCtx :=
  { buf_mdct := fun _ => 0, aac_kbd_long_1024 := fun _ => 0,
    aac_kbd_short_128 := fun _ => 0, sine_1024 := fun _ => 0,
    sine_128 := fun _ => 0, lpcOf := fun _ _ _ => 0, wml := fun _ _ _ => 0 }

/-- Trivial LTP parameters for the concrete LTP states. -/
def ltpY : LTP := { lag := 0, coef := 1, used := fun _ => false }

/-- Trivial TNS parameters for the concrete LTP states. -/
def tnsY : TNS :=
  { present := false, n_filt := fun _ => 0, length := fun _ _ => 0,
    order := fun _ _ => 0, direction := fun _ _ => false,
    coefArr := fun _ _ _ => 0 }

/-- Concrete eight-short channel state for the C2 counterexample: the saved
overlap buffer is constantly 7. -/
def sceY : SCE :=
  { ics := { icsMS with window_sequence := EIGHT_SHORT_SEQUENCE },
    coeffs := fun _ => 0, output := fun _ => 0, saved := fun _ => 7,
    ltp_state := fun _ => 0, ltp := ltpY, tns := tnsY }

/-- C2 counterexample: in an eight-short frame with saved ≡ 7 and zero
buf_mdct, the claim says the new tail copies samples [0,512) directly from
the saved buffer, so tail[448] = ltp_state[2048 + 448] = ltp_state[2496]
would be 7; the code computes buf_mdct[960] * swindow[127] = 0 there,
because vector_fmul_reverse overwrites [448,512) after the memcpy (and the
zero fill sits at [576,1024), not at [512,960)). -/
theorem update_ltp_eight_short_cex :
    sceY.ics.window_sequence = EIGHT_SHORT_SEQUENCE ∧
    sceY.saved 448 = 7 ∧
    (update_ltp ctxY sceY).ltp_state 2496 = 0 := by
  refine ⟨rfl, rfl, ?_⟩
  rw [update_ltp_ltp_state_hi ctxY sceY 2496 (by omega) (by omega)]
  norm_num [ltpTail, ctxY, sceY, icsMS, EIGHT_SHORT_SEQUENCE]

/-- C2 (amended): for an EIGHT_SHORT_SEQUENCE frame the new 1024-sample
tail written into ltp_state[2048..3071] is: [0,448) copied from the saved
overlap buffer (512 samples are copied but the last 64 are then
overwritten); [448,512) = buf_mdct[960 + j] weighted by the reversed second
half of the short analysis window; [512,576) = the reversed buf_mdct tail
weighted sample by sample; [576,1024) zero-filled (the memset targets
[576,1024), not the 448 samples after index 512). -/
theorem update_ltp_eight_short_tail_char (ctx : AACCtx) (sce : SCE)
    (h8 : sce.ics.window_sequence = EIGHT_SHORT_SEQUENCE) (k : ℕ) :
    (k < 448 → (update_ltp ctx sce).ltp_state (2048 + k) = sce.saved k) ∧
    (448 ≤ k → k < 512 →
      (update_ltp ctx sce).ltp_state (2048 + k) =
        ctx.buf_mdct (960 + (k - 448)) *
        (if sce.ics.use_kb_window then ctx.aac_kbd_short_128 else ctx.sine_128)
          (64 + (63 - (k - 448)))) ∧
    (512 ≤ k → k < 576 →
      (update_ltp ctx sce).ltp_state (2048 + k) =
        ctx.buf_mdct (1023 - (k - 512)) *
        (if sce.ics.use_kb_window then ctx.aac_kbd_short_128 else ctx.sine_128)
          (63 - (k - 512))) ∧
    (576 ≤ k → k < 1024 →
      (update_ltp ctx sce).ltp_state (2048 + k) = 0) := by
  have key : ∀ m, m < 1024 →
      (update_ltp ctx sce).ltp_state (2048 + m) = ltpTail ctx sce m := by
    intro m hm
    rw [update_ltp_ltp_state_hi ctx sce (2048 + m) (by omega) (by omega)]
    have hidx : 2048 + m - 2048 = m := by omega
    rw [hidx]
  have hbody : ∀ m, ltpTail ctx sce m =
      (if m < 448 then sce.saved m
       else if m < 512 then
        ctx.buf_mdct (960 + (m - 448)) *
          (if sce.ics.use_kb_window then ctx.aac_kbd_short_128 else ctx.sine_128)
            (64 + (63 - (m - 448)))
       else if m < 576 then
        ctx.buf_mdct (1023 - (m - 512)) *
          (if sce.ics.use_kb_window then ctx.aac_kbd_short_128 else ctx.sine_128)
            (63 - (m - 512))
       else 0) := by
    intro m
    rw [ltpTail, if_pos h8]
  refine ⟨fun hk => ?_, fun hk1 hk2 => ?_, fun hk1 hk2 => ?_, fun hk1 hk2 => ?_⟩
  · rw [key k (by omega), hbody k, if_pos hk]
  · rw [key k (by omega), hbody k, if_neg (by omega), if_pos hk2]
  · rw [key k (by omega), hbody k, if_neg (by omega), if_neg (by omega),
      if_pos hk2]
  · rw [key k (by omega), hbody k, if_neg (by omega), if_neg (by omega),
      if_neg (by omega)]

/-- Witness for update_ltp_eight_short_tail_char: the saved-copy range and
the zero range evaluated on the concrete eight-short state. -/
theorem update_ltp_eight_short_tail_char_witness :
    (update_ltp ctxY sceY).ltp_state (2048 + 100) = sceY.saved 100 ∧
    (update_ltp ctxY sceY).ltp_state (2048 + 600) = 0 :=
  ⟨(update_ltp_eight_short_tail_char ctxY sceY (by decide) 100).1 (by decide),
   (update_ltp_eight_short_tail_char ctxY sceY (by decide) 600).2.2.2
     (by decide) (by decide)⟩

/-- C3 (amended): after each frame, ltp_state holds the previous frame's
synthesized output in [0,1024), the current frame's synthesized output in
[1024,2048), and the current frame's computed windowed tail in [2048,3072) —
so only the last two synthesized frames are retained, the third slot being
the windowed tail, not a third synthesized frame. -/
theorem ltp_state_two_step_char (ctx1 ctx2 : AACCtx) (f1 f2 : ℕ → ℚ)
    (sce : SCE) (k : ℕ) (hk : k < 1024) :
    (decodeStep ctx2 f2 (decodeStep ctx1 f1 sce)).ltp_state k = f1 k ∧
    (decodeStep ctx2 f2 (decodeStep ctx1 f1 sce)).ltp_state (1024 + k) = f2 k ∧
    (decodeStep ctx2 f2 (decodeStep ctx1 f1 sce)).ltp_state (2048 + k) =
      ltpTail ctx2 { decodeStep ctx1 f1 sce with output := f2 } k := by
  refine ⟨?_, ?_, ?_⟩
  · show (update_ltp ctx2 { decodeStep ctx1 f1 sce with output := f2 }).ltp_state k
      = f1 k
    rw [update_ltp_ltp_state_lo ctx2 _ k hk]
    show (update_ltp ctx1 { sce with output := f1 }).ltp_state (1024 + k) = f1 k
    rw [update_ltp_ltp_state_mid ctx1 _ (1024 + k) (by omega) (by omega)]
    show f1 (1024 + k - 1024) = f1 k
    have hidx : 1024 + k - 1024 = k := by omega
    rw [hidx]
  · show (update_ltp ctx2 { decodeStep ctx1 f1 sce with output := f2 }).ltp_state
      (1024 + k) = f2 k
    rw [update_ltp_ltp_state_mid ctx2 _ (1024 + k) (by omega) (by omega)]
    show f2 (1024 + k - 1024) = f2 k
    have hidx : 1024 + k - 1024 = k := by omega
    rw [hidx]
  · show (update_ltp ctx2 { decodeStep ctx1 f1 sce with output := f2 }).ltp_state
      (2048 + k) = _
    rw [update_ltp_ltp_state_hi ctx2 _ (2048 + k) (by omega) (by omega)]
    have hidx : 2048 + k - 2048 = k := by omega
    rw [hidx]

/-- Concrete long-block channel state for the C3 theorems. -/
def sceZ : SCE :=
  { ics := icsMS, coeffs := fun _ => 0, output := fun _ => 0,
    saved := fun _ => 0, ltp_state := fun _ => 0, ltp := ltpY, tns := tnsY }

/-- C3 counterexample: three marker frames of constant values 1, 2, 3 are
decoded (ONLY_LONG block, zero buf_mdct, so each computed tail is zero).
The claim says ltp_state then holds the three synthesized frames [1, 2, 3]
oldest-first, i.e. ltp_state[0] = 1 and ltp_state[2048] = 3; the code leaves
ltp_state[0] = 2 (only the last two synthesized frames are retained) and
ltp_state[2048] = 0 (the last third holds the windowed tail, not a frame). -/
theorem ltp_state_three_frames_cex :
    (decodeStep ctxY (fun _ => 3) (decodeStep ctxY (fun _ => 2)
      (decodeStep ctxY (fun _ => 1) sceZ))).ltp_state 0 = 2 ∧
    (decodeStep ctxY (fun _ => 3) (decodeStep ctxY (fun _ => 2)
      (decodeStep ctxY (fun _ => 1) sceZ))).ltp_state 1024 = 3 ∧
    (decodeStep ctxY (fun _ => 3) (decodeStep ctxY (fun _ => 2)
      (decodeStep ctxY (fun _ => 1) sceZ))).ltp_state 2048 = 0 := by
  refine ⟨?_, ?_, ?_⟩
  · show (update_ltp ctxY { decodeStep ctxY (fun _ => 2)
        (decodeStep ctxY (fun _ => 1) sceZ) with
        output := fun _ => 3 }).ltp_state 0 = 2
    rw [update_ltp_ltp_state_lo ctxY _ 0 (by omega)]
    show (update_ltp ctxY { decodeStep ctxY (fun _ => 1) sceZ with
      output := fun _ => 2 }).ltp_state (1024 + 0) = 2
    rw [update_ltp_ltp_state_mid ctxY _ (1024 + 0) (by omega) (by omega)]
  · show (update_ltp ctxY { decodeStep ctxY (fun _ => 2)
        (decodeStep ctxY (fun _ => 1) sceZ) with
        output := fun _ => 3 }).ltp_state 1024 = 3
    rw [update_ltp_ltp_state_mid ctxY _ 1024 (by omega) (by omega)]
  · show (update_ltp ctxY { decodeStep ctxY (fun _ => 2)
        (decodeStep ctxY (fun _ => 1) sceZ) with
        output := fun _ => 3 }).ltp_state 2048 = 0
    rw [update_ltp_ltp_state_hi ctxY _ 2048 (by omega) (by omega)]
    have hics : ({ decodeStep ctxY (fun _ => 2)
        (decodeStep ctxY (fun _ => 1) sceZ) with
        output := fun _ => 3 } : SCE).ics = icsMS := rfl
    rw [ltpTail, hics]
    norm_num [ctxY, icsMS, EIGHT_SHORT_SEQUENCE, LONG_START_SEQUENCE,
      ONLY_LONG_SEQUENCE]

/-- Marker frame of constant value 5. -/
def frameW5 : ℕ → ℚ := fun _ => 5

/-- Marker frame of constant value 6. -/
def frameW6 : ℕ → ℚ := fun _ => 6

/-- Witness for ltp_state_two_step_char at two concrete marker frames. -/
theorem ltp_state_two_step_char_witness :
    (decodeStep ctxY frameW6 (decodeStep ctxY frameW5 sceZ)).ltp_state 0 =
      frameW5 0 ∧
    (decodeStep ctxY frameW6 (decodeStep ctxY frameW5 sceZ)).ltp_state
      (1024 + 0) = frameW6 0 ∧
    (decodeStep ctxY frameW6 (decodeStep ctxY frameW5 sceZ)).ltp_state
      (2048 + 0) =
      ltpTail ctxY { decodeStep ctxY frameW5 sceZ with output := frameW6 } 0 :=
  ltp_state_two_step_char ctxY ctxY frameW5 frameW6 sceZ 0 (by decide)

/-- C10: update_ltp uses the channel's coeffs buffer as the scratch area for
the computed tail: after the call, each of the first 1024 entries of coeffs
equals the corresponding entry of ltp_state[2048..3071] (the windowed LTP
tail just appended), for every window_sequence. -/
theorem update_ltp_coeffs_scratch (ctx : AACCtx) (sce : SCE) (k : ℕ)
    (hk : k < 1024) :
    (update_ltp ctx sce).coeffs k = (update_ltp ctx sce).ltp_state (2048 + k) := by
  have h1 : (update_ltp ctx sce).coeffs k = ltpTail ctx sce k := by
    show (if k < 1024 then ltpTail ctx sce k else sce.coeffs k) = _
    rw [if_pos hk]
  have h2 : (update_ltp ctx sce).ltp_state (2048 + k) = ltpTail ctx sce k := by
    rw [update_ltp_ltp_state_hi ctx sce (2048 + k) (by omega) (by omega)]
    have hidx : 2048 + k - 2048 = k := by omega
    rw [hidx]
  rw [h1, h2]

/-- Concrete state for the C10 witness (a long-start block this time). -/
def sceW10 : SCE :=
  { ics := { icsMS with window_sequence := LONG_START_SEQUENCE },
    coeffs := fun _ => 3, output := fun _ => 4, saved := fun _ => 5,
    ltp_state := fun _ => 6, ltp := ltpY, tns := tnsY }

/-- Witness for update_ltp_coeffs_scratch at a concrete state and index. -/
theorem update_ltp_coeffs_scratch_witness :
    (update_ltp ctxY sceW10).coeffs 0 =
      (update_ltp ctxY sceW10).ltp_state (2048 + 0) :=
  update_ltp_coeffs_scratch ctxY sceW10 0 (by decide)

/-- Concrete long-block state for the C5 witness (lag 0, coefficient 2). -/
def sceW5 : SCE :=
  { ics := icsMS, coeffs := fun _ => 0, output := fun _ => 9,
    saved := fun _ => 0, ltp_state := fun _ => 4,
    ltp := { lag := 0, coef := 2, used := fun _ => false }, tns := tnsY }

/-- Concrete eight-short state for the C5 witness. -/
def sceW5s : SCE :=
  { sceW5 with ics := { icsMS with window_sequence := EIGHT_SHORT_SEQUENCE } }

/-- Witness for apply_ltp_pred_buffer: the eight-short no-op clause, a copied
prediction sample, and a zero-filled sample, at concrete inputs. -/
theorem apply_ltp_pred_buffer_witness :
    apply_ltp ctxY sceW5s = (sceW5s, ctxY) ∧
    (apply_ltp ctxY sceW5).1.output 0 =
      sceW5.ltp_state (0 + 2048 - sceW5.ltp.lag) * sceW5.ltp.coef ∧
    (apply_ltp ctxY sceW5).1.output 1500 = 0 :=
  ⟨(apply_ltp_pred_buffer ctxY sceW5s).1 (by decide),
   ((apply_ltp_pred_buffer ctxY sceW5).2 (by decide)).1 0 (by decide),
   ((apply_ltp_pred_buffer ctxY sceW5).2 (by decide)).2 1500 (by decide)
     (by decide)⟩
